import Mathlib

/-!
Verification development for the findable query-runner service
(`services/runner/src`).  The response parser (`parser.py`), prompt builder
(`prompt_builder.py`), fan-out executor and session scheduler (`main.py`),
database status writer (`db_client.py`) and Redis queue wrapper (`queue.py`)
are embedded as executable Lean functions.  Texts are `List Char`; the
regular-expression scans of the parser are implemented as direct
character-level scanners that realise the exact matching semantics
(leftmost, non-overlapping, greedy with the backtracking the concrete
patterns admit) of the Python `re` calls in the source, specialised to the
fixed patterns appearing there.  ASCII inputs are assumed throughout (all
inputs considered in this development are ASCII, so Python's Unicode-aware
character classes coincide with the ASCII ones used here).
-/

namespace Findable

/-- Python `\s` whitespace class (ASCII): space, tab, newline, CR, VT, FF. -/
def isSpacePy (c : Char) : Bool :=
  c = ' ' || c = '\t' || c = '\n' || c = '\r' || c = '\x0b' || c = '\x0c'

/-- Python `\w` word-character class (ASCII): letters, digits, underscore. -/
def isWordChar (c : Char) : Bool :=
  c.isAlphanum || c = '_'

/-- Maximal run of characters satisfying `p` from the front, with the rest. -/
def takeRun (p : Char → Bool) : List Char → List Char × List Char
  | [] => ([], [])
  | c :: cs =>
      if p c then
        let r := takeRun p cs
        (c :: r.1, r.2)
      else ([], c :: cs)

/-- `pat` is a literal prefix of `cs` (case-sensitive). -/
def startsWithL : List Char → List Char → Bool
  | [], _ => true
  | _ :: _, [] => false
  | p :: ps, c :: cs => p = c && startsWithL ps cs

/-- Case-insensitive ASCII variant of `startsWithL`. -/
def startsWithCI (pat cs : List Char) : Bool :=
  startsWithL (pat.map Char.toLower) (cs.map Char.toLower)

/-- `pat` occurs as a substring of `hay` (case-sensitive). -/
def containsSub (hay pat : List Char) : Bool :=
  match hay with
  | [] => startsWithL pat []
  | _ :: t => startsWithL pat hay || containsSub t pat

/-- `pat` occurs as a substring of `hay`, ASCII case-insensitively
(Python `pat.lower() in hay.lower()`). -/
def containsCI (hay pat : List Char) : Bool :=
  containsSub (hay.map Char.toLower) (pat.map Char.toLower)

/-- Python `str.lower()` (ASCII). -/
def pyLower (l : List Char) : List Char := l.map Char.toLower

/-- Python `str.upper()` (ASCII). -/
def pyUpper (l : List Char) : List Char := l.map Char.toUpper

/-- Python `str.strip(chars)`: remove leading and trailing characters
drawn from `s`. -/
def pyStripSet (s : List Char) (l : List Char) : List Char :=
  ((l.dropWhile (fun c => s.contains c)).reverse.dropWhile
    (fun c => s.contains c)).reverse

/-- Python `str.strip()`: remove leading and trailing whitespace. -/
def pyStripWs (l : List Char) : List Char :=
  ((l.dropWhile isSpacePy).reverse.dropWhile isSpacePy).reverse

/-- Python `str.capitalize()`: first character upper-cased, the rest
lower-cased. -/
def pyCapitalize : List Char → List Char
  | [] => []
  | c :: cs => c.toUpper :: cs.map Char.toLower

/-- Append each element of the second list to `acc` unless already present
(first-occurrence de-duplication into an accumulator; the order-normalised
model of Python's `list(set(...))`, whose concrete ordering is
unspecified -- all claims about such lists are stated at set level). -/
def dedupInto {α : Type} [DecidableEq α] (acc : List α) : List α → List α
  | [] => acc
  | x :: xs => dedupInto (if x ∈ acc then acc else acc ++ [x]) xs

/-- First-occurrence de-duplication (order-normalised `list(set(...))`). -/
def pyDedup {α : Type} [DecidableEq α] (l : List α) : List α :=
  dedupInto [] l

/-- Python `sep.join(parts)`. -/
def joinWith (sep : List Char) : List (List Char) → List Char
  | [] => []
  | [x] => x
  | x :: y :: xs => x ++ sep ++ joinWith sep (y :: xs)

/-- Scheme characters accepted by `urllib.parse` after the initial letter. -/
def isSchemeChar (c : Char) : Bool :=
  c.isAlphanum || c = '+' || c = '-' || c = '.'

/-- The `netloc` component of `urllib.parse.urlparse`: strip a leading
`scheme:` when present, then, if the remainder starts with `//`, the netloc
runs up to the next `/`, `?` or `#`; otherwise it is empty. -/
def netlocOf (u : List Char) : List Char :=
  let rest :=
    match u with
    | [] => u
    | c :: cs =>
        if c.isAlpha then
          let r := takeRun isSchemeChar cs
          match r.2 with
          | ':' :: tail => tail
          | _ => u
        else u
  if startsWithL "//".data rest then
    (rest.drop 2).takeWhile (fun c => !(c = '/' || c = '?' || c = '#'))
  else []

/-- `re.sub(r'^www\.', '', d)` from `ResponseParser._extract_domain_name`. -/
def stripWwwDot (d : List Char) : List Char :=
  if startsWithL "www.".data d then d.drop 4 else d

/-- `re.sub(r'\.[a-z]+$', '', d)` from `ResponseParser._extract_domain_name`:
remove a final `.` followed by one or more lowercase letters when the
string ends that way. -/
def stripTldSuffix (d : List Char) : List Char :=
  let r := d.reverse
  let run := takeRun Char.isLower r
  match run.2 with
  | '.' :: rest2 => if run.1.isEmpty then d else rest2.reverse
  | _ => d

/-- `ResponseParser._extract_domain_name` (parser.py 170-184): when the
input starts with `http` take the URL's netloc, strip a leading `www.`,
strip a final lowercase TLD suffix, and capitalize the remainder
(Python `capitalize` also lower-cases the tail).  The `try/except` of the
source cannot fire on string input; on the empty string the result is
empty, matching the `if domain else ""` of the source. -/
def extract_domain_name (domain : List Char) : List Char :=
  let d1 := if startsWithL "http".data domain then netlocOf domain else domain
  pyCapitalize (stripTldSuffix (stripWwwDot d1))

/-! ## Citation extraction (`ResponseParser._extract_citations`, parser.py 65-88) -/

/-- Characters matched by the repeated class of the compiled URL pattern
`http[s]?://(?:[a-zA-Z]|[0-9]|[$-_@.&+]|[!*\\(\\),]|(?:%hh))+`:
`[$-_@.&+]` is the ASCII range `$`(0x24)..`_`(0x5F) (which already contains
`@ . & + % * \ ( ) ,`), the other classes add letters, digits and `!`. -/
def isUrlChar (c : Char) : Bool :=
  c.isAlpha || c.isDigit || ('$' ≤ c && c ≤ '_') || c = '!'

/-- One attempted match of the URL pattern at the head of the text: literal
`https://` or `http://` (the greedy `[s]?` tries `s` first) followed by a
maximal non-empty run of URL characters.  Returns the match and the rest. -/
def matchUrl (cs : List Char) : Option (List Char × List Char) :=
  if startsWithL "https://".data cs then
    let r := takeRun isUrlChar (cs.drop 8)
    if r.1.isEmpty then none else some ("https://".data ++ r.1, r.2)
  else if startsWithL "http://".data cs then
    let r := takeRun isUrlChar (cs.drop 7)
    if r.1.isEmpty then none else some ("http://".data ++ r.1, r.2)
  else none

/-- `re.findall` driver for patterns without boundary context: try the
matcher at each position, emit the capture and resume after the match on
success, advance one character on failure.  Fuel-indexed so that the
recursion is structural; `fuel = length + 1` always suffices because every
step consumes at least one character of the text. -/
def scanSimple (m : List Char → Option (List Char × List Char)) :
    Nat → List Char → List (List Char)
  | 0, _ => []
  | fuel + 1, cs =>
      match m cs with
      | some (cap, rest) => cap :: scanSimple m fuel rest
      | none =>
          match cs with
          | [] => []
          | _ :: t => scanSimple m fuel t

/-- `re.findall` of the URL pattern. -/
def urlFindall (t : List Char) : List (List Char) :=
  scanSimple matchUrl (t.length + 1) t

/-- One attempted match of `\[(\d+)\]` at the head: `[`, a maximal non-empty
digit run (the capture), `]`. -/
def matchBracketNum : List Char → Option (List Char × List Char)
  | '[' :: rest =>
      let r := takeRun Char.isDigit rest
      if r.1.isEmpty then none
      else
        match r.2 with
        | ']' :: tail => some (r.1, tail)
        | _ => none
  | _ => none

/-- One attempted match of `\((\d+)\)` at the head. -/
def matchParenNum : List Char → Option (List Char × List Char)
  | '(' :: rest =>
      let r := takeRun Char.isDigit rest
      if r.1.isEmpty then none
      else
        match r.2 with
        | ')' :: tail => some (r.1, tail)
        | _ => none
  | _ => none

/-- `re.findall(r'\[(\d+)\]', t)`. -/
def bracketFindall (t : List Char) : List (List Char) :=
  scanSimple matchBracketNum (t.length + 1) t

/-- `re.findall(r'\((\d+)\)', t)`. -/
def parenFindall (t : List Char) : List (List Char) :=
  scanSimple matchParenNum (t.length + 1) t

/-- Drop a single leading newline (the `(?:\n|$)` of the tag patterns
consumes a matched newline). -/
def dropOneNewline : List Char → List Char
  | '\n' :: t => t
  | t => t

/-- Backtracking case of the tag patterns when only whitespace remains
after the tag: the greedy `\s*` retreats to the last non-newline whitespace
character, which becomes the (one character) capture of the lazy `(.+?)`;
one following newline is consumed and the trailing newlines beyond it
remain unscanned text. -/
def backtrackWsCapture (w : List Char) : Option (List Char × List Char) :=
  let nl := takeRun (fun c => c = '\n') w.reverse
  match nl.2 with
  | [] => none
  | c :: _ =>
      match nl.1 with
      | [] => some ([c], [])
      | _ :: more => some ([c], more)

/-- One attempted match of `Tag:\s*(.+?)(?:\n|$)` (case-insensitive, `tag`
is `source:` or `reference:`) at the head of the text.  In the ordinary
case the greedy `\s*` absorbs the whitespace after the tag (newlines
included) and the lazy `(.+?)` captures up to the next newline or the end
of the text. -/
def matchTag (tag : List Char) (cs : List Char) : Option (List Char × List Char) :=
  if startsWithCI tag cs then
    let rest := cs.drop tag.length
    let w := takeRun isSpacePy rest
    match w.2 with
    | [] => backtrackWsCapture w.1
    | _ :: _ =>
        let t := takeRun (fun c => !(c = '\n')) w.2
        some (t.1, dropOneNewline t.2)
  else none

/-- `re.findall(r'Source:\s*(.+?)(?:\n|$)', t, re.IGNORECASE)`. -/
def sourceFindall (t : List Char) : List (List Char) :=
  scanSimple (matchTag "source:".data) (t.length + 1) t

/-- `re.findall(r'Reference:\s*(.+?)(?:\n|$)', t, re.IGNORECASE)`. -/
def referenceFindall (t : List Char) : List (List Char) :=
  scanSimple (matchTag "reference:".data) (t.length + 1) t

/-- The punctuation stripped from URL matches: `url.strip('.,!?;)')`. -/
def stripCitChars : List Char := ".,!?;)".data

/-- The URL half of `_extract_citations`: each URL match is stripped of
surrounding punctuation and kept when its netloc is non-empty (the
`try/except urlparse` of the source cannot fire on string input). -/
def urlCitations (t : List Char) : List (List Char) :=
  (urlFindall t).foldl
    (fun acc u =>
      let cu := pyStripSet stripCitChars u
      if (netlocOf cu).isEmpty then acc else acc ++ [cu]) []

/-- The reference-marker half of `_extract_citations`: each match is
appended unless already present. -/
def addCitations (acc : List (List Char)) (ms : List (List Char)) : List (List Char) :=
  ms.foldl (fun a m => if m ∈ a then a else a ++ [m]) acc

/-- `ResponseParser._extract_citations` (parser.py 65-88): URL matches
(cleaned, netloc-validated), then the four citation patterns in source
order, finally `list(set(...))` de-duplication (modelled in first-occurrence
order; claims about this list are stated at set level since Python's set
ordering is unspecified). -/
def extract_citations (t : List Char) : List (List Char) :=
  let c1 := addCitations (urlCitations t) (bracketFindall t)
  let c2 := addCitations c1 (parenFindall t)
  let c3 := addCitations c2 (sourceFindall t)
  let c4 := addCitations c3 (referenceFindall t)
  pyDedup c4

/-- The textual rendering of a citation list used to state the idempotence
claim: one citation per line. -/
def renderCitations (cs : List (List Char)) : List Char :=
  joinWith "\n".data cs

/-! ## Snippet extraction (`ResponseParser._extract_snippets`, parser.py 118-131) -/

/-- The sentence separators of `re.split(r'[.!?]+', text)`. -/
def isSentenceSep (c : Char) : Bool :=
  c = '.' || c = '!' || c = '?'

mutual

/-- `re.split(r'[.!?]+', text)`: accumulate the current segment until a
separator run. -/
def splitSentencesAux (cur : List Char) : List Char → List (List Char)
  | [] => [cur.reverse]
  | c :: cs =>
      if isSentenceSep c then cur.reverse :: splitSentencesSkip cs
      else splitSentencesAux (c :: cur) cs

/-- Skip the remainder of a separator run (a `+`-collapsed run yields a
single split point). -/
def splitSentencesSkip : List Char → List (List Char)
  | [] => [[]]
  | c :: cs =>
      if isSentenceSep c then splitSentencesSkip cs
      else splitSentencesAux [c] cs

end

/-- `re.split(r'[.!?]+', text)`. -/
def splitSentences (t : List Char) : List (List Char) :=
  splitSentencesAux [] t

/-- The candidate a (mention, sentence) pair contributes in
`_extract_snippets`: the stripped sentence, provided the mention occurs in
it case-insensitively and the stripped form is longer than 20 characters
(the source tests `len(cleaned) > 20`, strictly). -/
def snippetOf (m s : List Char) : Option (List Char) :=
  if containsCI s m then
    let cleaned := pyStripWs s
    if 20 < cleaned.length then some cleaned else none
  else none

/-- `ResponseParser._extract_snippets` (parser.py 118-131): the nested
mention/sentence loops with in-place de-duplication, capped at the first
10 snippets. -/
def extract_snippets (t : List Char) (mentions : List (List Char)) : List (List Char) :=
  let sentences := splitSentences t
  (mentions.foldl
    (fun acc m =>
      sentences.foldl
        (fun a s =>
          match snippetOf m s with
          | some c => if c ∈ a then a else a ++ [c]
          | none => a) acc) []).take 10

/-! ## Mention extraction (`ResponseParser._extract_mentions`, parser.py 90-116)

The three `mention_indicators` patterns run under `re.IGNORECASE`, so their
`[A-Z][a-z]+` atoms match any word of at least two ASCII letters; the three
`tech_patterns` run case-sensitively.  Each scanner below realises the
leftmost non-overlapping `findall` semantics of its fixed pattern,
including the backtracking the greedy `(?:\s+[A-Z][a-z]+)*` and `[a-z]+`
repetitions admit. -/

/-- Word-boundary test against the character following a match fragment:
`\b` after a letter holds when the next character is absent or not a word
character. -/
def boundaryB : List Char → Bool
  | [] => true
  | c :: _ => !isWordChar c

/-- Greedy parse of `(?:\s+[A-Z][a-z]+)*\b` after a captured word
(patterns 1 and 3 of `mention_indicators`): extend with further
whitespace-separated words while possible; when the trailing `\b` fails
after the last word (only a digit or underscore can follow a maximal
letter run) the greedy star drops that repetition, which always restores
the boundary.  Returns the captured extension and the rest of the text. -/
def extendWords : Nat → List Char → Option (List Char × List Char)
  | 0, _ => none
  | fuel + 1, cs =>
      let s := takeRun isSpacePy cs
      let w := takeRun Char.isAlpha s.2
      if s.1.isEmpty || w.1.length < 2 then
        if boundaryB cs then some ([], cs) else none
      else
        match extendWords fuel w.2 with
        | some (ext, rest) => some (s.1 ++ w.1 ++ ext, rest)
        | none => some ([], cs)

/-- The `use|uses|using|with|via|through|from` triggers of the first
`mention_indicators` pattern. -/
def triggerWordsA : List (List Char) :=
  ["use", "uses", "using", "with", "via", "through", "from"].map String.data

/-- The `try|consider|recommend|suggest` triggers of the third
`mention_indicators` pattern. -/
def triggerWordsC : List (List Char) :=
  ["try", "consider", "recommend", "suggest"].map String.data

/-- One attempted match of
`\b(?:trigger)\s+([A-Z][a-z]+(?:\s+[A-Z][a-z]+)*)\b` (case-insensitive) at
the head.  Because `\s+` must follow the trigger, the ordered alternation
of triggers is equivalent to the maximal letter run equalling one of them
case-insensitively. -/
def matchIndicatorTrigger (triggers : List (List Char)) (bOK : Bool)
    (cs : List Char) : Option (List Char × List Char) :=
  if !bOK then none else
  let tw := takeRun Char.isAlpha cs
  if tw.1.isEmpty then none else
  if !(triggers.contains (pyLower tw.1)) then none else
  let s1 := takeRun isSpacePy tw.2
  if s1.1.isEmpty then none else
  let w1 := takeRun Char.isAlpha s1.2
  if w1.1.length < 2 then none else
  match extendWords (w1.2.length + 1) w1.2 with
  | some (ext, rest) => some (w1.1 ++ ext, rest)
  | none => none

/-- The verb alternation of the second `mention_indicators` pattern. -/
def verbWords : List (List Char) :=
  ["is", "was", "are", "were", "can", "could", "will", "would"].map String.data

/-- Greedy parse of `(?:\s+[A-Z][a-z]+)*\s+(?:verb)\b` after the first
captured word (pattern 2 of `mention_indicators`): the greedy star prefers
consuming each word into the capture, falling back to treating it as the
closing verb when no later completion exists.  Returns the captured
extension and the rest after the matched verb. -/
def extendToVerb : Nat → List Char → Option (List Char × List Char)
  | 0, _ => none
  | fuel + 1, cs =>
      let s := takeRun isSpacePy cs
      if s.1.isEmpty then none else
      let w := takeRun Char.isAlpha s.2
      if w.1.length < 2 then none else
      match extendToVerb fuel w.2 with
      | some (ext, rest) => some (s.1 ++ w.1 ++ ext, rest)
      | none =>
          if verbWords.contains (pyLower w.1) && boundaryB w.2 then
            some ([], w.2)
          else none

/-- One attempted match of
`\b([A-Z][a-z]+(?:\s+[A-Z][a-z]+)*)\s+(?:is|was|...)\b` (case-insensitive)
at the head. -/
def matchCapVerb (bOK : Bool) (cs : List Char) : Option (List Char × List Char) :=
  if !bOK then none else
  let w1 := takeRun Char.isAlpha cs
  if w1.1.length < 2 then none else
  match extendToVerb (w1.2.length + 1) w1.2 with
  | some (ext, rest) => some (w1.1 ++ ext, rest)
  | none => none

/-- `pat` is a literal suffix of `l`. -/
def endsWithL (pat l : List Char) : Bool :=
  startsWithL pat.reverse l.reverse

/-- One attempted match of `\b([A-Z][a-z]+(?:ly|io|app|AI|API|SDK))\b`
(case-sensitive) at the head.  The greedy `[a-z]+` takes the maximal
lowercase run; backtracking leaves exactly three possibilities, tried in
decreasing `[a-z]+` length / alternation order: an uppercase suffix
directly after the run, a `ly`/`io` ending of the run, an `app` ending of
the run -- each with the trailing `\b`. -/
def matchTechSuffix (bOK : Bool) (cs : List Char) : Option (List Char × List Char) :=
  if !bOK then none else
  match cs with
  | [] => none
  | c :: rest =>
      if !c.isUpper then none else
      let r := takeRun Char.isLower rest
      if r.1.isEmpty then none else
      if startsWithL "AI".data r.2 && boundaryB (r.2.drop 2) then
        some (c :: r.1 ++ "AI".data, r.2.drop 2)
      else if startsWithL "API".data r.2 && boundaryB (r.2.drop 3) then
        some (c :: r.1 ++ "API".data, r.2.drop 3)
      else if startsWithL "SDK".data r.2 && boundaryB (r.2.drop 3) then
        some (c :: r.1 ++ "SDK".data, r.2.drop 3)
      else if 3 ≤ r.1.length && (endsWithL "ly".data r.1 || endsWithL "io".data r.1)
          && boundaryB r.2 then
        some (c :: r.1, r.2)
      else if 4 ≤ r.1.length && endsWithL "app".data r.1 && boundaryB r.2 then
        some (c :: r.1, r.2)
      else none

/-- One attempted match of `\b([A-Z][a-z]*[A-Z][a-z]*)\b` (case-sensitive,
CamelCase) at the head.  No backtracking can repair a failed trailing
boundary, since shrinking a lowercase run only exposes more letters. -/
def matchCamel (bOK : Bool) (cs : List Char) : Option (List Char × List Char) :=
  if !bOK then none else
  match cs with
  | [] => none
  | c1 :: rest =>
      if !c1.isUpper then none else
      let r1 := takeRun Char.isLower rest
      match r1.2 with
      | [] => none
      | c2 :: rest2 =>
          if !c2.isUpper then none else
          let r2 := takeRun Char.isLower rest2
          if boundaryB r2.2 then some (c1 :: r1.1 ++ c2 :: r2.1, r2.2)
          else none

/-- The keyword alternation of the third tech pattern. -/
def techKeywords : List (List Char) :=
  ["platform", "service", "tool", "software", "app"].map String.data

/-- Ordered keyword alternation followed by `\b`: first keyword that is a
literal prefix of the text with a word boundary after it. -/
def findKeyword : List (List Char) → List Char → Option (List Char × List Char)
  | [], _ => none
  | k :: ks, cs =>
      if startsWithL k cs && boundaryB (cs.drop k.length) then
        some (k, cs.drop k.length)
      else findKeyword ks cs

/-- One attempted match of
`\b([A-Z]+[a-z]*)\s+(?:platform|service|tool|software|app)\b`
(case-sensitive) at the head. -/
def matchTechKeyword (bOK : Bool) (cs : List Char) : Option (List Char × List Char) :=
  if !bOK then none else
  let u := takeRun Char.isUpper cs
  if u.1.isEmpty then none else
  let l := takeRun Char.isLower u.2
  let s := takeRun isSpacePy l.2
  if s.1.isEmpty then none else
  match findKeyword techKeywords s.2 with
  | some kr => some (u.1 ++ l.1, kr.2)
  | none => none

/-- `re.findall` driver for the boundary-sensitive mention patterns: the
Boolean argument tells the matcher whether a word boundary holds at the
current position (start of text, or previous character not a word
character).  Every successful match of these patterns ends in a letter, so
scanning resumes with the boundary flag false. -/
def scanB (m : Bool → List Char → Option (List Char × List Char)) :
    Nat → Bool → List Char → List (List Char)
  | 0, _, _ => []
  | fuel + 1, bOK, cs =>
      match m bOK cs with
      | some (cap, rest) => cap :: scanB m fuel false rest
      | none =>
          match cs with
          | [] => []
          | c :: t => scanB m fuel (!isWordChar c) t

/-- `re.findall` over a whole text for a boundary-sensitive matcher. -/
def scanBound (m : Bool → List Char → Option (List Char × List Char))
    (t : List Char) : List (List Char) :=
  scanB m (t.length + 1) true t

/-- The stop-list of `_extract_mentions` (parser.py 100). -/
def mentionStopList : List (List Char) :=
  ["The", "This", "That", "These", "Those"].map String.data

/-- `re.sub(r'[^\w\s]', '', match).strip()` (parser.py 99). -/
def cleanMentionMatch (m : List Char) : List Char :=
  pyStripWs (m.filter (fun c => isWordChar c || isSpacePy c))

/-- The cleaning/filtering applied to each `mention_indicators` match
(parser.py 98-101): keep the cleaned match when it has at least two
characters and is not in the stop-list (a case-sensitive `in` test). -/
def filterIndicator (ms : List (List Char)) : List (List Char) :=
  ms.filterMap (fun m =>
    let cleaned := cleanMentionMatch m
    if 2 ≤ cleaned.length && !(mentionStopList.contains cleaned) then
      some cleaned
    else none)

/-- The three `mention_indicators` scans in source order. -/
def indicatorMatches (t : List Char) : List (List Char) :=
  scanBound (matchIndicatorTrigger triggerWordsA) t
    ++ scanBound matchCapVerb t
    ++ scanBound (matchIndicatorTrigger triggerWordsC) t

/-- The three `tech_patterns` scans in source order, filtered by
`len(match) >= 3` (parser.py 113) -- note: no stop-list test here. -/
def techMatches (t : List Char) : List (List Char) :=
  (scanBound matchTechSuffix t
    ++ scanBound matchCamel t
    ++ scanBound matchTechKeyword t).filter (fun m => 3 ≤ m.length)

/-- `ResponseParser._extract_mentions` (parser.py 90-116): indicator
matches (cleaned, length- and stop-list-filtered), then tech matches
(length-filtered only), then `list(set(...))` de-duplication (modelled in
first-occurrence order; claims are stated at set level). -/
def extract_mentions (t : List Char) : List (List Char) :=
  pyDedup (filterIndicator (indicatorMatches t) ++ techMatches t)

/-! ## Project/competitor mentions
(`ResponseParser.extract_project_mentions`, parser.py 133-168) -/

/-- Word-ness of an optional neighbouring character (`\b` treats the ends
of the text as non-word). -/
def isWordOpt : Option Char → Bool
  | none => false
  | some c => isWordChar c

/-- A `\b` boundary holds between two (optional) neighbouring characters
when exactly one of them is a word character. -/
def bdryHolds (a b : Option Char) : Bool :=
  isWordOpt a != isWordOpt b

/-- `re.search(rf'\b{re.escape(name)}\b', text, re.IGNORECASE)` for a
non-empty literal `name`: some position of `text` carries a
case-insensitive occurrence of `name` with `\b` boundaries on both
sides. -/
def wordSearchCI (name : List Char) : Option Char → List Char → Bool :=
  fun prev text =>
    match text with
    | [] => false
    | c :: rest =>
        (startsWithCI name text &&
          bdryHolds prev name.head? &&
          bdryHolds name.getLast? (text.drop name.length).head?) ||
        wordSearchCI name (some c) rest

/-- The dictionary returned by `extract_project_mentions`. -/
structure ProjectMentions where
  project_mentions : List (List Char)
  competitor_mentions : List (List Char)
  total_mentions : Nat
deriving DecidableEq

/-- The body of `extract_project_mentions` (the `try` block, parser.py
135-161): derive the project brand name, search it whole-word
case-insensitively, likewise each competitor name, and count. -/
def epmBody (t : List Char) (project_domain : List Char)
    (competitors : List (List Char)) : Except (List Char) ProjectMentions :=
  let project_name := extract_domain_name project_domain
  let pm :=
    if project_name.isEmpty then []
    else if wordSearchCI project_name none t then [project_name] else []
  let cm := competitors.foldl
    (fun acc comp =>
      let cn := extract_domain_name comp
      if cn.isEmpty then acc
      else if wordSearchCI cn none t then acc ++ [cn] else acc) []
  Except.ok ⟨pm, cm, pm.length + cm.length⟩

/-- The `except` handler of `extract_project_mentions` (parser.py
162-168): any exception degrades to empty mention lists and zero count. -/
def epmCatch : Except (List Char) ProjectMentions → ProjectMentions
  | .ok r => r
  | .error _ => ⟨[], [], 0⟩

/-- `ResponseParser.extract_project_mentions` (parser.py 133-168).  On
string inputs the body cannot raise, so the handler is never reached; it
is nevertheless part of the embedded control flow. -/
def extract_project_mentions (t : List Char) (project_domain : List Char)
    (competitors : List (List Char)) : ProjectMentions :=
  epmCatch (epmBody t project_domain competitors)

/-! ## `ResponseParser.parse` (parser.py 38-63) -/

/-- The metadata dictionary of a parse result: the success shape of
parser.py 49-54, or the `{"error": str(e)}` shape of the handler. -/
inductive ParseMeta where
  | ok (word_count : Nat) (character_count : Nat) (has_urls : Bool)
      (mention_count : Nat)
  | err (msg : List Char)
deriving DecidableEq

/-- The dictionary returned by `parse`. -/
structure ParseResult where
  citations : List (List Char)
  mentions : List (List Char)
  snippets : List (List Char)
  metadata : ParseMeta
deriving DecidableEq

/-- `len(text.split())`: the number of maximal non-whitespace runs. -/
def pyWordCount (t : List Char) : Nat :=
  (t.foldl
    (fun (st : Nat × Bool) c =>
      if isSpacePy c then (st.1, false)
      else if st.2 then st else (st.1 + 1, true)) (0, false)).1

/-- The body of `parse` (the `try` block, parser.py 40-55). -/
def parseBody (t : List Char) : Except (List Char) ParseResult :=
  let citations := extract_citations t
  let mentions := extract_mentions t
  let snippets := extract_snippets t mentions
  Except.ok ⟨citations, mentions, snippets,
    ParseMeta.ok (pyWordCount t) t.length (decide (0 < citations.length))
      mentions.length⟩

/-- The `except` handler of `parse` (parser.py 56-63): any exception
degrades to empty citations/mentions/snippets with an error annotation. -/
def parseCatch : Except (List Char) ParseResult → ParseResult
  | .ok r => r
  | .error e => ⟨[], [], [], ParseMeta.err e⟩

/-- `ResponseParser.parse` (parser.py 38-63). -/
def parse (t : List Char) : ParseResult :=
  parseCatch (parseBody t)

/-! ## Prompt builder (`PromptBuilder`, prompt_builder.py) -/

/-- `base_instructions['findability']` (prompt_builder.py 18-19). -/
def findabilityBase : List Char :=
  ("You are an AI assistant helping analyze product findability in search results.\nYour goal is to provide accurate, helpful responses about products and services while being aware of market context and competition.").data

/-- `base_instructions['recommendation']` (prompt_builder.py 21-22). -/
def recommendationBase : List Char :=
  ("You are an AI assistant helping users find the best tools and services for their needs.\nProvide balanced, informative recommendations based on actual product capabilities and user requirements.").data

/-- `base_instructions['comparison']` (prompt_builder.py 24-25). -/
def comparisonBase : List Char :=
  ("You are an AI assistant helping users compare different products and services.\nProvide objective comparisons highlighting the strengths and use cases of different options.").data

/-- `base_instructions.get(prompt_type, base_instructions['findability'])`
(prompt_builder.py 40). -/
def baseInstructionFor (pt : List Char) : List Char :=
  if pt = "findability".data then findabilityBase
  else if pt = "recommendation".data then recommendationBase
  else if pt = "comparison".data then comparisonBase
  else findabilityBase

/-- `_get_response_instructions('findability')` (prompt_builder.py
180-188): the literal triple-quoted block, leading and trailing newlines
included. -/
def findabilityGuidelines : List Char :=
  ("\nRESPONSE GUIDELINES:\n- Provide a helpful, accurate response to the user's query\n- When relevant, mention appropriate products/services that could help\n- Be objective and focus on actual capabilities and use cases\n- Include specific examples or details when possible\n- If the focus product is genuinely relevant, include it naturally in your response\n- Cite sources or provide links when available\n").data

/-- `_get_response_instructions('recommendation')` (prompt_builder.py
191-199). -/
def recommendationGuidelines : List Char :=
  ("\nRESPONSE GUIDELINES:\n- Provide balanced recommendations based on the user's specific needs\n- Consider different options and their strengths\n- Explain why certain options might be better for different use cases\n- Be honest about limitations and trade-offs\n- Include the focus product if it's genuinely suitable for the user's needs\n- Suggest trying multiple options when appropriate\n").data

/-- `_get_response_instructions('comparison')` (prompt_builder.py
202-210). -/
def comparisonGuidelines : List Char :=
  ("\nRESPONSE GUIDELINES:\n- Provide objective comparisons between different options\n- Highlight the unique strengths of each product/service\n- Explain which might be better for different scenarios\n- Be fair and balanced in your assessment\n- Include concrete examples of use cases\n- Help the user understand the key differentiators\n").data

/-- `_get_response_instructions` (prompt_builder.py 176-212): unknown
variants yield the empty string (note: not the findability block). -/
def responseInstructionsFor (pt : List Char) : List Char :=
  if pt = "findability".data then findabilityGuidelines
  else if pt = "recommendation".data then recommendationGuidelines
  else if pt = "comparison".data then comparisonGuidelines
  else []

/-- The project-context dictionary consumed by the prompt builder and the
executor.  `Option` fields model key presence/truthiness as tested by
`_build_project_context` (`'name' in project_info`, `'domain' in
project_info and project_info['domain']`, ...); a `domain` that is absent
or `None` is modelled as `none` (both make `extract_project_mentions`
derive the empty brand name). -/
structure ProjectInfoR where
  name : Option (List Char)
  oneLiner : Option (List Char)
  domain : Option (List Char)
  keywords : Option (List (List Char))
  competitors : List (List Char)
deriving DecidableEq

/-- The market-context dictionary produced by
`SERPAnalyzer.analyze_query_context` as consumed by
`_build_market_context`; `Option` fields model the `'key' in
market_context` presence tests, `total_results` models
`.get('total_results', 0)`. -/
structure MarketContextR where
  top_domains : Option (List (List Char × Nat))
  competitor_presence : Option (List (List Char))
  project_presence : Option Nat
  total_results : Option Nat
deriving DecidableEq

/-- Round `num/den` to the nearest integer, ties to even. -/
def roundHalfEven (num den : Nat) : Nat :=
  let q := num / den
  let r := num % den
  if 2 * r < den then q
  else if den < 2 * r then q + 1
  else if q % 2 = 0 then q else q + 1

/-- `f"{(presence/total)*100:.1f}"`: one-decimal rendering of the
percentage.  The source formats a binary float; this exact-rational
rendering agrees with it except for representation-induced tie breaking in
the final decimal, and no claim in this development depends on these
digits. -/
def pctOneDecimal (presence total : Nat) : List Char :=
  let tenths := roundHalfEven (presence * 1000) total
  (Nat.repr (tenths / 10)).data ++ ".".data ++ (Nat.repr (tenths % 10)).data

/-- `PromptBuilder._build_market_context` (prompt_builder.py 134-155). -/
def buildMarketContext (mc : MarketContextR) : List Char :=
  let p1 :=
    match mc.top_domains with
    | some tds =>
        let domains := (tds.take 3).map Prod.fst
        if domains.isEmpty then []
        else ["Leading domains in search results: ".data
                ++ joinWith ", ".data domains]
    | none => []
  let p2 :=
    match mc.competitor_presence with
    | some comps =>
        let cs := comps.take 3
        if cs.isEmpty then []
        else ["Competitors frequently mentioned: ".data ++ joinWith ", ".data cs]
    | none => []
  let p3 :=
    match mc.project_presence with
    | some presence =>
        let total := mc.total_results.getD 0
        if 0 < total then
          ["Current market presence: ".data ++ (Nat.repr presence).data
            ++ "/".data ++ (Nat.repr total).data ++ " results (".data
            ++ pctOneDecimal presence total ++ "%)".data]
        else []
    | none => []
  joinWith "\n".data (p1 ++ p2 ++ p3)

/-- `PromptBuilder._build_project_context` (prompt_builder.py 157-174). -/
def buildProjectContext (p : ProjectInfoR) : List Char :=
  let p1 := match p.name with
    | some n => ["Product: ".data ++ n]
    | none => []
  let p2 := match p.oneLiner with
    | some o => ["Description: ".data ++ o]
    | none => []
  let p3 := match p.domain with
    | some d => if d.isEmpty then [] else ["Website: ".data ++ d]
    | none => []
  let p4 := match p.keywords with
    | some ks =>
        if ks.isEmpty then []
        else ["Key features: ".data ++ joinWith ", ".data (ks.take 5)]
    | none => []
  joinWith "\n".data (p1 ++ p2 ++ p3 ++ p4)

/-- The optional market-context element of the prompt-part list
(prompt_builder.py 43-46): present exactly when a market context was
supplied and its rendered section is non-empty. -/
def marketPartOf (mc : Option MarketContextR) : List (List Char) :=
  match mc with
  | some m =>
      let cs := buildMarketContext m
      if cs.isEmpty then [] else ["\nMARKET CONTEXT:\n".data ++ cs]
  | none => []

/-- The optional project-information element of the prompt-part list
(prompt_builder.py 49-52); a falsy (empty) `project_info` dict is
modelled as `none`. -/
def projPartOf (p : Option ProjectInfoR) : List (List Char) :=
  match p with
  | some pr =>
      let ps := buildProjectContext pr
      if ps.isEmpty then [] else ["\nPRODUCT INFORMATION:\n".data ++ ps]
  | none => []

/-- The prompt-part elements following the market-context slot
(prompt_builder.py 49-56): project information, labelled user query,
response guidelines. -/
def tailPromptParts (query : List Char) (p : Option ProjectInfoR)
    (pt : List Char) : List (List Char) :=
  projPartOf p ++ ["\nUSER QUERY: ".data ++ query] ++ [responseInstructionsFor pt]

/-- The full `prompt_parts` list of `build_findability_prompt`. -/
def promptParts (query : List Char) (p : Option ProjectInfoR)
    (mc : Option MarketContextR) (pt : List Char) : List (List Char) :=
  baseInstructionFor pt :: (marketPartOf mc ++ tailPromptParts query p pt)

/-- `PromptBuilder.build_findability_prompt` (prompt_builder.py 28-58):
the parts joined by newlines. -/
def build_findability_prompt (query : List Char) (p : Option ProjectInfoR)
    (mc : Option MarketContextR) (pt : List Char) : List Char :=
  joinWith "\n".data (promptParts query p mc pt)

/-! ## Fan-out executor (`QueryRunner.run_query`, main.py 61-135)

The executor's effects (model calls, market-context analysis, database
persistence, wall-clock timing) are supplied by an environment record;
`main.py` control flow is embedded over it.  Database-generated
identifiers and timestamps of `save_run_result` are supplied by the
environment as well; a failing save (e.g. the `ValueError` raised when the
model is missing from the `Model` table, db_client.py 210-211) is an
`Except.error`, caught by the per-attempt handler. -/

/-- The persisted fields of one RunResult (`db_client.save_run_result`,
db_client.py 187-248; the database-generated row id and `createdAt` are
not modelled). -/
structure RunResultR where
  sessionId : String
  queryId : String
  modelId : String
  queryText : List Char
  responseText : List Char
  citations : List (List Char)
  extractedSnippets : List (List Char)
  mentions : List (List Char)
  executionTimeMs : Nat
  surface : String
deriving DecidableEq

/-- The effect environment of the executor. -/
structure RunnerEnv where
  /-- model ids with a configured client (`self.clients`, main.py 43-57). -/
  configured : List String
  /-- `serp_analyzer.analyze_query_context` outcome per query (main.py 76). -/
  analyze : List Char → ProjectInfoR → Except (List Char) MarketContextR
  /-- `client.query(enhanced_prompt)` outcome per (model, run, prompt)
  after client-internal retries (main.py 101). -/
  callModel : String → Nat → List Char → Except (List Char) (List Char)
  /-- measured wall-clock latency per (model, run) in ms (main.py 100-102). -/
  elapsedMs : String → Nat → Nat
  /-- `save_run_result` database interaction per (query text, model id):
  the resolved (queryId, modelId) pair, or the exception it raised. -/
  saveResult : List Char → String → Except (List Char) (String × String)

/-- The default surface value of `save_run_result`. -/
def surfaceWeb : String := "web"

/-- One (model, run) attempt of `run_query` (the `try` body, main.py
88-130): build the enhanced prompt, call the model, parse, merge generic
and project mentions (`list(set(...))`, a case-sensitive union), persist.
`none` models the per-attempt `except` (main.py 132-133): log and move
on, no RunResult. -/
def attemptRun (env : RunnerEnv) (sessionId : String) (query : List Char)
    (pinfo : ProjectInfoR) (mc : Option MarketContextR) (modelId : String)
    (runIdx : Nat) : Option RunResultR :=
  let prompt := build_findability_prompt query (some pinfo) mc "findability".data
  match env.callModel modelId runIdx prompt with
  | .error _ => none
  | .ok response =>
      let parsed := parse response
      let projm := extract_project_mentions response (pinfo.domain.getD [])
        pinfo.competitors
      let all_mentions := pyDedup (parsed.mentions ++ projm.project_mentions)
      match env.saveResult query modelId with
      | .error _ => none
      | .ok ids =>
          some ⟨sessionId, ids.1, ids.2, query, response, parsed.citations,
            parsed.snippets, all_mentions, env.elapsedMs modelId runIdx,
            surfaceWeb⟩

/-- `QueryRunner.run_query` (main.py 61-135): one market-context analysis
for the query (failure tolerated as absence), then the model × run-index
fan-out; unconfigured models are skipped with a warning. -/
def run_query (env : RunnerEnv) (sessionId : String) (query : List Char)
    (models : List String) (pinfo : ProjectInfoR) (run_count : Nat) :
    List RunResultR :=
  let mc : Option MarketContextR :=
    match env.analyze query pinfo with
    | .ok m => some m
    | .error _ => none
  (models.map (fun m =>
    if env.configured.contains m then
      (List.range run_count).filterMap
        (fun r => attemptRun env sessionId query pinfo mc m r)
    else [])).flatten

/-! ## Session scheduler (`QueryRunner.process_session` /
`QueryRunner.start_worker`, main.py 137-198) and the database status
writer (`QueryDatabaseClient.update_session_status`, db_client.py
96-139). -/

/-- The session fields consumed by `process_session` (main.py 150-155):
`metadata.queries`, `metadata.models`, `metadata.runCount`, `projectId`. -/
structure SessionRec where
  projectId : String
  queries : List (List Char)
  models : List String
  runCount : Nat
deriving DecidableEq

/-- The default placeholder project context substituted when the project
is missing (main.py 159-167): `{'id': ..., 'name': 'Unknown Project',
'domain': None, 'competitors': [], 'keywords': []}` -- note the dict has
no `oneLiner` key. -/
def defaultProjectInfo : ProjectInfoR :=
  ⟨some "Unknown Project".data, none, none, some [], []⟩

/-- The effect environment of the scheduler. -/
structure SchedEnv where
  runner : RunnerEnv
  /-- `db.get_session` outcome (main.py 141). -/
  getSession : String → Except (List Char) (Option SessionRec)
  /-- `db.update_session_status` outcome per (session, status, error
  message) -- the write may itself raise (persistence outage). -/
  updateStatus : String → String → Option (List Char) → Except (List Char) Unit
  /-- `db.get_project_info` outcome (main.py 158). -/
  getProjectInfo : String → Except (List Char) (Option ProjectInfoR)

/-- The outcome of one `process_session` call: the successful status
writes in order (status argument, error-message argument), the RunResults
persisted before returning, and an exception escaping `process_session`
itself (possible only when the failure handler's own status write
raises). -/
structure ProcOut where
  writes : List (String × Option (List Char))
  results : List RunResultR
  escaped : Option (List Char)
deriving DecidableEq

/-- The `except` handler of `process_session` (main.py 177-179): log the
exception and write status `failed` -- with NO error-message argument, so
`None` is recorded.  If this write itself raises, the exception escapes
to the worker loop. -/
def failHandler (env : SchedEnv) (sid : String)
    (priorWrites : List (String × Option (List Char)))
    (priorResults : List RunResultR) : ProcOut :=
  match env.updateStatus sid "failed" none with
  | .ok _ => ⟨priorWrites ++ [("failed", none)], priorResults, none⟩
  | .error e2 => ⟨priorWrites, priorResults, some e2⟩

/-- `QueryRunner.process_session` (main.py 137-179). -/
def process_session (env : SchedEnv) (sid : String) : ProcOut :=
  match env.getSession sid with
  | .error _ => failHandler env sid [] []
  | .ok none => ⟨[], [], none⟩
  | .ok (some sess) =>
      match env.updateStatus sid "running" none with
      | .error _ => failHandler env sid [] []
      | .ok _ =>
          match env.getProjectInfo sess.projectId with
          | .error _ => failHandler env sid [("running", none)] []
          | .ok piOpt =>
              let pinfo := piOpt.getD defaultProjectInfo
              let results := (sess.queries.map (fun q =>
                run_query env.runner sid q sess.models pinfo sess.runCount)).flatten
              match env.updateStatus sid "completed" none with
              | .error _ => failHandler env sid [("running", none)] results
              | .ok _ =>
                  ⟨[("running", none), ("completed", none)], results, none⟩

/-- The `RunSession` row fields written by `update_session_status`
(timestamps are modelled as stamped-or-not flags). -/
structure SessionRow where
  status : String
  startedAt : Bool
  completedAt : Bool
  errorMessage : Option (List Char)
deriving DecidableEq

/-- `str.upper()` on a `String`. -/
def pyUpperS (s : String) : String :=
  ⟨pyUpper s.data⟩

/-- The row update performed by one successful
`QueryDatabaseClient.update_session_status` call (db_client.py 96-139):
`RUNNING` stamps `startedAt`; `COMPLETED`/`FAILED` stamp `completedAt` and
overwrite `errorMessage` with the given argument (`NULL` when absent);
anything else sets the status only. -/
def update_session_status_row (row : SessionRow) (status : String)
    (err : Option (List Char)) : SessionRow :=
  let u := pyUpperS status
  if u = "RUNNING" then
    { row with status := u, startedAt := true }
  else if u = "COMPLETED" || u = "FAILED" then
    { row with status := u, completedAt := true, errorMessage := err }
  else
    { row with status := u }

/-- Fold a list of successful status writes over a session row. -/
def applyWrites (row : SessionRow) (ws : List (String × Option (List Char))) :
    SessionRow :=
  ws.foldl (fun r w => update_session_status_row r w.1 w.2) row

/-- A freshly created session row (`QUEUED`, nothing stamped). -/
def queuedRow : SessionRow :=
  ⟨"QUEUED", false, false, none⟩

/-! ## Redis queue wrapper (`RedisQueue`, queue.py) and the worker loop
(`QueryRunner.start_worker`, main.py 181-198). -/

/-- The queue state: the scored pending set (`findable:query_sessions`)
and the in-flight processing set (`findable:processing_sessions`). -/
structure QueueState where
  pending : List (String × Int)
  processing : List String
deriving DecidableEq

/-- `ZPOPMAX`: remove and return an entry of maximal score.  (Redis
breaks score ties by lexicographically greatest member; this model takes
the first entry of maximal score -- no claim depends on tie order.) -/
def zpopmaxL : List (String × Int) → Option ((String × Int) × List (String × Int))
  | [] => none
  | x :: xs =>
      match zpopmaxL xs with
      | none => some (x, [])
      | some m => if x.2 < m.1.2 then some (m.1, x :: m.2) else some (x, xs)

/-- `SADD`: add to the processing set (set semantics). -/
def saddProcessing (l : List String) (sid : String) : List String :=
  if sid ∈ l then l else l ++ [sid]

/-- `RedisQueue.get_next_session` (queue.py 50-64): pop the highest
priority session and mark it in-flight. -/
def get_next_session (q : QueueState) : Option String × QueueState :=
  match zpopmaxL q.pending with
  | none => (none, q)
  | some (x, rest) =>
      (some x.1, ⟨rest, saddProcessing q.processing x.1⟩)

/-- `RedisQueue.mark_session_completed` (queue.py 66-72): `SREM` from the
processing set.  Defined by the queue wrapper but never invoked by the
worker loop. -/
def mark_session_completed (q : QueueState) (sid : String) : QueueState :=
  ⟨q.pending, q.processing.filter (fun s => s ≠ sid)⟩

/-- `RedisQueue.mark_session_failed` (queue.py 74-81): identical `SREM`;
likewise never invoked by the worker loop. -/
def mark_session_failed (q : QueueState) (sid : String) : QueueState :=
  ⟨q.pending, q.processing.filter (fun s => s ≠ sid)⟩

/-- One iteration of the worker loop (main.py 185-198): dequeue; when a
session id arrives, process it.  An exception escaping `process_session`
is caught by the loop's own `except` (sleep and continue), so the
iteration outcome never alters the control flow; an empty queue waits.
Neither branch touches the processing set again. -/
def workerStep (env : SchedEnv) (q : QueueState) :
    QueueState × Option (String × ProcOut) :=
  match get_next_session q with
  | (none, q') => (q', none)
  | (some sid, q') => (q', some (sid, process_session env sid))

/-- `QueryRunner.start_worker` (main.py 181-198) run for `n` iterations:
the queue state and the per-session outcomes, in order. -/
def workerRun (env : SchedEnv) : Nat → QueueState → QueueState × List (String × ProcOut)
  | 0, q => (q, [])
  | n + 1, q =>
      let s := workerStep env q
      let r := workerRun env n s.1
      (r.1, (match s.2 with | some p => [p] | none => []) ++ r.2)

/-- The dequeue schedule of `n` worker iterations, determined by the
queue alone. -/
def dequeueTrace : Nat → QueueState → List String
  | 0, _ => []
  | n + 1, q =>
      match get_next_session q with
      | (none, q') => dequeueTrace n q'
      | (some sid, q') => sid :: dequeueTrace n q'

/-! ## Predicates and concrete fixtures used by the claim theorems -/

/-- `u` is a complete URL-pattern match on its own: a scheme followed by a
non-empty run of URL characters and nothing else. -/
def isFullUrl (u : List Char) : Bool :=
  (startsWithL "https://".data u && !(u.drop 8).isEmpty && (u.drop 8).all isUrlChar)
    || (startsWithL "http://".data u && !(u.drop 7).isEmpty
          && (u.drop 7).all isUrlChar)

/-- `u` is a clean URL citation: a complete URL match, already stripped of
the citation punctuation, with a non-empty netloc -- the invariant every
URL-derived citation of `_extract_citations` satisfies. -/
def isCleanUrl (u : List Char) : Bool :=
  isFullUrl u && (pyStripSet stripCitChars u == u) && !(netlocOf u).isEmpty

/-- A default RunResult record (used only to project concrete singleton
results in witness statements). -/
def runResultDflt : RunResultR :=
  ⟨"", "", "", [], [], [], [], [], 0, ""⟩

/-- A runner environment in which every external effect fails (no
configured clients, failing scraper/model/database). -/
def runnerEnvTrivial : RunnerEnv :=
  ⟨[], fun _ _ => .error [], fun _ _ _ => .error [], fun _ _ => 0,
    fun _ _ => .error []⟩

/-- Scheduler environment for the C1 counterexample: loading the session
raises `boom`, while status writes succeed. -/
def env1 : SchedEnv :=
  ⟨runnerEnvTrivial, fun _ => .error "boom".data, fun _ _ _ => .ok (),
    fun _ => .ok none⟩

/-- Project context for the C4 counterexample: domain `notion.so`. -/
def pi4 : ProjectInfoR :=
  ⟨some "Notion".data, none, some "notion.so".data, some [], []⟩

/-- Runner environment for the C4 counterexample: one configured model
whose response contains the CamelCase token `NOtion`. -/
def env4 : RunnerEnv :=
  ⟨["m1"], fun _ _ => .error "no net".data,
    fun _ _ _ => .ok "NOtion is great".data, fun _ _ => 5,
    fun _ _ => .ok ("q1", "mid1")⟩

/-- Session for the C7 witness: one query, two models, two runs. -/
def sess7 : SessionRec :=
  ⟨"p1", ["best note app".data], ["m1", "m2"], 2⟩

/-- Project context for the C7 witness. -/
def pi7 : ProjectInfoR :=
  ⟨some "Acme".data, none, some "acme.io".data, some [], []⟩

/-- Runner environment for the C7 witness: both models configured, the
model call failing for exactly the (m2, run 1) pair. -/
def runnerEnv7 : RunnerEnv :=
  ⟨["m1", "m2"], fun _ _ => .error "offline".data,
    fun m r _ => if m = "m2" && r = 1 then .error "api down".data
                 else .ok "All good".data,
    fun _ _ => 7, fun _ _ => .ok ("q7", "mid7")⟩

/-- Scheduler environment for the C7 witness: bookkeeping succeeds. -/
def env7 : SchedEnv :=
  ⟨runnerEnv7, fun _ => .ok (some sess7), fun _ _ _ => .ok (),
    fun _ => .ok (some pi7)⟩

/-- Initial queue for the C10 witness: one pending session. -/
def q10 : QueueState :=
  ⟨[("s1", 5)], []⟩

/-! ## Shared lemmas -/

theorem mem_dedupInto {α : Type} [DecidableEq α] (l : List α) :
    ∀ (acc : List α) (x : α), x ∈ dedupInto acc l ↔ x ∈ acc ∨ x ∈ l := by
  induction l with
  | nil => intro acc x; simp [dedupInto]
  | cons y ys ih =>
      intro acc x
      simp only [dedupInto]
      rw [ih]
      by_cases h : y ∈ acc
      · simp only [if_pos h, List.mem_cons]
        constructor
        · rintro (hx | hx)
          · exact Or.inl hx
          · exact Or.inr (Or.inr hx)
        · rintro (hx | hx | hx)
          · exact Or.inl hx
          · exact Or.inl (hx ▸ h)
          · exact Or.inr hx
      · simp only [if_neg h, List.mem_append, List.mem_singleton, List.mem_cons]
        tauto

theorem dedupInto_nodup {α : Type} [DecidableEq α] (l : List α) :
    ∀ acc : List α, acc.Nodup → (dedupInto acc l).Nodup := by
  induction l with
  | nil => intro acc h; exact h
  | cons y ys ih =>
      intro acc h
      simp only [dedupInto]
      by_cases hy : y ∈ acc
      · simpa [hy] using ih acc h
      · refine ih _ ?_
        simp only [if_neg hy]
        simp [List.nodup_append, h, hy]

theorem mem_pyDedup {α : Type} [DecidableEq α] (l : List α) (x : α) :
    x ∈ pyDedup l ↔ x ∈ l := by
  unfold pyDedup
  rw [mem_dedupInto]
  simp

theorem pyDedup_nodup {α : Type} [DecidableEq α] (l : List α) :
    (pyDedup l).Nodup :=
  dedupInto_nodup l [] List.nodup_nil

theorem pyDedup_toFinset {α : Type} [DecidableEq α] (l : List α) :
    (pyDedup l).toFinset = l.toFinset := by
  ext x
  simp [List.mem_toFinset, mem_pyDedup]

theorem dedupInto_eq_append {α : Type} [DecidableEq α] (l : List α) :
    ∀ acc : List α, (acc ++ l).Nodup → dedupInto acc l = acc ++ l := by
  induction l with
  | nil => intro acc _; simp [dedupInto]
  | cons y ys ih =>
      intro acc h
      have hy : y ∉ acc := by
        intro hmem
        have := (List.nodup_append.mp h).2.2
        exact this hmem (List.mem_cons_self y ys)
      simp only [dedupInto, if_neg hy]
      have h' : ((acc ++ [y]) ++ ys).Nodup := by
        simpa [List.append_assoc] using h
      rw [ih _ h']
      simp

theorem pyDedup_eq_self {α : Type} [DecidableEq α] (l : List α)
    (h : l.Nodup) : pyDedup l = l := by
  unfold pyDedup
  simpa using dedupInto_eq_append l [] (by simpa using h)

theorem dedupInto_append {α : Type} [DecidableEq α] (l1 l2 acc : List α) :
    dedupInto acc (l1 ++ l2) = dedupInto (dedupInto acc l1) l2 := by
  induction l1 generalizing acc with
  | nil => simp [dedupInto]
  | cons y ys ih => simp only [List.cons_append, dedupInto]; exact ih _

theorem takeRun_append_eq (p : Char → Bool) :
    ∀ l : List Char, (takeRun p l).1 ++ (takeRun p l).2 = l := by
  intro l
  induction l with
  | nil => rfl
  | cons c cs ih =>
      simp only [takeRun]
      by_cases h : p c
      · simp [h, ih]
      · simp [h]

theorem takeRun_of_all (p : Char → Bool) :
    ∀ (l tail : List Char), l.all p = true →
      (tail = [] ∨ ∃ c ts, tail = c :: ts ∧ p c = false) →
      takeRun p (l ++ tail) = (l, tail) := by
  intro l
  induction l with
  | nil =>
      intro tail _ htail
      rcases htail with h | ⟨c, ts, rfl, hc⟩
      · subst h; rfl
      · simp [takeRun, hc]
  | cons x xs ih =>
      intro tail hall htail
      have hx : p x = true := by
        simp only [List.all_cons, Bool.and_eq_true] at hall
        exact hall.1
      have hxs : xs.all p = true := by
        simp only [List.all_cons, Bool.and_eq_true] at hall
        exact hall.2
      simp only [List.cons_append, takeRun, hx, if_pos]
      simp only [List.append_eq]
      rw [ih tail hxs htail]

theorem length_filterMap_of_isSome {α β : Type} (f : α → Option β) :
    ∀ l : List α, (∀ x ∈ l, (f x).isSome) →
      (l.filterMap f).length = l.length := by
  intro l
  induction l with
  | nil => intro _; rfl
  | cons x xs ih =>
      intro h
      have hx := h x (List.mem_cons_self x xs)
      rcases Option.isSome_iff_exists.mp hx with ⟨b, hb⟩
      rw [List.filterMap_cons, hb]
      simp only [List.length_cons]
      rw [ih (fun y hy => h y (List.mem_cons_of_mem x hy))]

/-! ## C2 -- brand-name derivation from a domain string -/

/-- C2 counterexample: the claim asserts that the schemeless, dotless
input `bad input` yields the empty string; the code instead returns the
capitalized input `Bad input` (the `^www\.` and `\.[a-z]+$` substitutions
leave it unchanged and `capitalize` upper-cases the first letter). -/
theorem c2_domain_extraction_counterexample :
    extract_domain_name "bad input".data ≠ "".data ∧
    extract_domain_name "bad input".data = "Bad input".data := by
  exact ⟨by decide, by decide⟩

/-- C2 amended: brand-name derivation strips the URL scheme, a leading
`www.`, and the lowercase top-level suffix, then capitalizes (first letter
upper-cased, remaining letters lower-cased): `https://www.Acme.io/path`
yields `Acme`; `bad input` (no scheme, no dots) yields `Bad input` --
without raising -- rather than the empty string. -/
theorem c2_domain_extraction_amended :
    extract_domain_name "https://www.Acme.io/path".data = "Acme".data ∧
    extract_domain_name "bad input".data = "Bad input".data := by
  exact ⟨by decide, by decide⟩

/-! ## C6 -- prompt determinism and the market-context delta -/

/-- C6: prompt assembly is a deterministic pure function: identical
(query, project info, market context, prompt variant) inputs yield
byte-identical prompts; and for every input the prompt with market
context present is the newline-join of the base instruction, the optional
market-context element, and the tail parts, while the prompt with market
context absent is the newline-join of the same base instruction and the
same tail parts -- all other sections unchanged and in the same order. -/
theorem c6_prompt_determinism_and_market_delta :
    (∀ q q' p p' mc mc' pt pt',
      q = q' → p = p' → mc = mc' → pt = pt' →
      build_findability_prompt q p mc pt = build_findability_prompt q' p' mc' pt')
    ∧ (∀ q p pt mc,
        build_findability_prompt q p (some mc) pt =
          joinWith "\n".data
            (baseInstructionFor pt ::
              (marketPartOf (some mc) ++ tailPromptParts q p pt))
        ∧ build_findability_prompt q p none pt =
            joinWith "\n".data
              (baseInstructionFor pt :: tailPromptParts q p pt)) := by
  refine ⟨?_, ?_⟩
  · intro q q' p p' mc mc' pt pt' h1 h2 h3 h4
    subst h1; subst h2; subst h3; subst h4; rfl
  · intro q p pt mc
    exact ⟨rfl, rfl⟩

/-- Witness for C6 at a concrete input. -/
theorem c6_prompt_determinism_and_market_delta_witness :
    build_findability_prompt "best tool".data none none "findability".data =
      build_findability_prompt "best tool".data none none "findability".data :=
  c6_prompt_determinism_and_market_delta.1 _ _ _ _ _ _ _ _ rfl rfl rfl rfl

/-! ## C9 -- totality of the extraction engine -/

/-- C9: the extraction engine is total at its public interface: for every
input text, `parse` returns the successful extraction result (its try-body
never raises on text input) and likewise `extract_project_mentions`; and
the embedded exception handlers convert any internal exception into empty
citations/mentions/snippets plus an error annotation (respectively empty
mention lists with zero count), so no input aborts the surrounding
attempt. -/
theorem c9_parser_totality :
    (∀ t, ∃ r, parseBody t = Except.ok r ∧ parse t = r)
    ∧ (∀ t pd comps, ∃ r, epmBody t pd comps = Except.ok r
        ∧ extract_project_mentions t pd comps = r)
    ∧ (∀ e, parseCatch (Except.error e) = ⟨[], [], [], ParseMeta.err e⟩)
    ∧ (∀ e, epmCatch (Except.error e) = ⟨[], [], 0⟩) :=
  ⟨fun _ => ⟨_, rfl, rfl⟩, fun _ _ _ => ⟨_, rfl, rfl⟩,
    fun _ => rfl, fun _ => rfl⟩

/-! ## C8 -- snippet extraction -/

theorem foldl_snippet_dedup (f : List Char → Option (List Char)) :
    ∀ (l : List (List Char)) (acc : List (List Char)),
      l.foldl (fun a s =>
        match f s with
        | some c => if c ∈ a then a else a ++ [c]
        | none => a) acc
      = dedupInto acc (l.filterMap f) := by
  intro l
  induction l with
  | nil => intro acc; rfl
  | cons x xs ih =>
      intro acc
      simp only [List.foldl_cons, List.filterMap_cons]
      cases hfx : f x with
      | none => simp only [hfx]; exact ih acc
      | some c =>
          simp only [hfx]
          rw [ih]
          conv_rhs => rw [dedupInto]
          by_cases hmem : c ∈ acc
          · simp [hmem]
          · simp [hmem]

theorem foldl_fun_congr {α β : Type} (f g : α → β → α) (l : List β)
    (h : ∀ a b, f a b = g a b) : ∀ a, l.foldl f a = l.foldl g a := by
  induction l with
  | nil => intro a; rfl
  | cons x xs ih =>
      intro a
      simp only [List.foldl_cons]
      rw [h a x]
      exact ih _

theorem foldl_dedupInto_flatten {α β : Type} [DecidableEq α] (g : β → List α) :
    ∀ (l : List β) (acc : List α),
      l.foldl (fun a m => dedupInto a (g m)) acc
        = dedupInto acc ((l.map g).flatten) := by
  intro l
  induction l with
  | nil => intro acc; rfl
  | cons x xs ih =>
      intro acc
      simp only [List.foldl_cons, List.map_cons, List.flatten_cons]
      rw [ih, dedupInto_append]

/-- C8 amended: snippet extraction splits the text into segments on runs
of `.`/`!`/`?`, retains, for each mention in order, every segment
containing that mention as a case-insensitive substring whose stripped
form is strictly longer than 20 characters (the claim said "at least
20"), de-duplicates by first occurrence, and caps the combined result at
10 segments in first-encountered order. -/
theorem c8_snippet_extraction_amended :
    ∀ t ms, extract_snippets t ms
      = (pyDedup ((ms.map
          (fun m => (splitSentences t).filterMap (snippetOf m))).flatten)).take 10 := by
  intro t ms
  unfold extract_snippets
  dsimp only
  congr 1
  rw [foldl_fun_congr
        (fun acc m => (splitSentences t).foldl
          (fun a s =>
            match snippetOf m s with
            | some c => if c ∈ a then a else a ++ [c]
            | none => a) acc)
        (fun a m => dedupInto a ((splitSentences t).filterMap (snippetOf m)))
        ms
        (fun a m => foldl_snippet_dedup (snippetOf m) (splitSentences t) a)]
  exact foldl_dedupInto_flatten _ ms []

/-- C8 counterexample: this text is a single sentence-segment that
contains the mention case-insensitively and whose stripped form is
exactly 20 characters long -- "at least 20 characters" in the claim's
words -- yet no snippet is retained, because the code requires strictly
more than 20 characters. -/
theorem c8_snippet_extraction_counterexample :
    splitSentences "Acme is great indeed".data = ["Acme is great indeed".data]
    ∧ containsCI "Acme is great indeed".data "Acme".data = true
    ∧ (pyStripWs "Acme is great indeed".data).length = 20
    ∧ extract_snippets "Acme is great indeed".data ["Acme".data] = [] := by
  exact ⟨by decide, by decide, by decide, by decide⟩

/-! ## C3 -- the mention filters -/

/-- C3 counterexample: the stop-list member `This` is returned by
mention extraction -- the third tech pattern
(`\b([A-Z]+[a-z]*)\s+(?:platform|...)\b`) captures `This` from
`This platform`, and the tech-pattern loop applies no stop-list filter. -/
theorem c3_mention_stoplist_counterexample :
    "This".data ∈ extract_mentions "This platform is nice.".data
    ∧ "This".data ∈ mentionStopList := by
  exact ⟨by decide, by decide⟩

/-- C3 amended: every entry returned by mention extraction has length at
least 2 (indicator-pattern entries are punctuation-stripped and pass the
`len >= 2` and stop-list filters; tech-pattern entries pass only the
`len >= 3` filter, so stop-list members such as `This` can be returned by
the tech patterns). -/
theorem c3_mention_filter_amended :
    ∀ t m, m ∈ extract_mentions t → 2 ≤ m.length := by
  intro t m hm
  unfold extract_mentions at hm
  rw [mem_pyDedup] at hm
  rcases List.mem_append.mp hm with h | h
  · unfold filterIndicator at h
    rcases List.mem_filterMap.mp h with ⟨m0, _, hf⟩
    simp only at hf
    split at hf
    · rename_i hcond
      simp only [Bool.and_eq_true] at hcond
      cases hf
      exact of_decide_eq_true hcond.1
    · exact absurd hf (by simp)
  · unfold techMatches at h
    have h3 := of_decide_eq_true (List.mem_filter.mp h).2
    omega

/-- Witness for C3 amended at a concrete input. -/
theorem c3_mention_filter_amended_witness :
    "Acme".data ∈ extract_mentions "Acme is good".data
    ∧ 2 ≤ ("Acme".data).length :=
  ⟨by decide,
    c3_mention_filter_amended "Acme is good".data "Acme".data (by decide)⟩

/-! ## C10 -- the in-flight processing set -/

theorem mem_saddProcessing_self (l : List String) (sid : String) :
    sid ∈ saddProcessing l sid := by
  unfold saddProcessing
  split
  · assumption
  · simp

theorem mem_saddProcessing_of_mem (l : List String) (sid x : String)
    (h : x ∈ l) : x ∈ saddProcessing l sid := by
  unfold saddProcessing
  split
  · exact h
  · simp [h]

theorem workerRun_trace_eq (env : SchedEnv) :
    ∀ (n : Nat) (q : QueueState),
      (workerRun env n q).2.map Prod.fst = dequeueTrace n q := by
  intro n
  induction n with
  | zero => intro q; rfl
  | succ n ih =>
      intro q
      unfold workerRun workerStep dequeueTrace
      cases hz : zpopmaxL q.pending with
      | none =>
          simp only [get_next_session, hz]
          exact ih q
      | some xr =>
          simp only [get_next_session, hz, List.map_append, List.map_cons]
          rw [ih]
          rfl

theorem workerRun_processing_mem (env : SchedEnv) :
    ∀ (n : Nat) (q : QueueState) (x : String),
      (x ∈ q.processing ∨ x ∈ dequeueTrace n q) →
      x ∈ (workerRun env n q).1.processing := by
  intro n
  induction n with
  | zero =>
      intro q x h
      rcases h with h | h
      · exact h
      · cases h
  | succ n ih =>
      intro q x h
      unfold workerRun workerStep
      unfold dequeueTrace at h
      cases hz : zpopmaxL q.pending with
      | none =>
          simp only [get_next_session, hz]
          simp only [get_next_session, hz] at h
          exact ih q x h
      | some xr =>
          simp only [get_next_session, hz]
          simp only [get_next_session, hz, List.mem_cons] at h
          refine ih _ x ?_
          rcases h with h | h | h
          · exact Or.inl (mem_saddProcessing_of_mem _ _ _ h)
          · exact Or.inl (h ▸ mem_saddProcessing_self _ _)
          · exact Or.inr h

/-- C10: the worker loop never removes a session id from the in-flight
processing set: over any number of worker iterations the dequeue trace is
exactly the set of ids added, the worker never calls the queue's
mark-completed/mark-failed operations (its step function is built from
`get_next_session` and `process_session` alone), and every id that was
in-flight initially or was dequeued at any iteration is still in the
processing set afterwards -- even for sessions that completed normally. -/
theorem c10_inflight_set_never_shrinks :
    ∀ (env : SchedEnv) (n : Nat) (q : QueueState),
      ((workerRun env n q).2.map Prod.fst = dequeueTrace n q)
      ∧ ∀ x, (x ∈ q.processing ∨ x ∈ dequeueTrace n q) →
          x ∈ (workerRun env n q).1.processing :=
  fun env n q =>
    ⟨workerRun_trace_eq env n q, fun x h => workerRun_processing_mem env n q x h⟩

/-- Witness for C10: the one pending session of `q10` is dequeued and is
still in the processing set after two iterations (the first of which
processes it to a terminal outcome). -/
theorem c10_inflight_set_never_shrinks_witness :
    "s1" ∈ (workerRun env1 2 q10).1.processing :=
  (c10_inflight_set_never_shrinks env1 2 q10).2 "s1" (Or.inr (by decide))

/-! ## C7 -- fan-out counts and completion -/

theorem flatten_map_length_le {α β : Type} (f : α → List β) (k : Nat)
    (h : ∀ a, (f a).length ≤ k) :
    ∀ l : List α, ((l.map f).flatten).length ≤ l.length * k := by
  intro l
  induction l with
  | nil => simp
  | cons x xs ih =>
      simp only [List.map_cons, List.flatten_cons, List.length_append,
        List.length_cons]
      have := h x
      calc (f x).length + ((xs.map f).flatten).length
          ≤ k + xs.length * k := Nat.add_le_add this ih
        _ = (xs.length + 1) * k := by ring

theorem flatten_map_length_eq {α β : Type} (f : α → List β) (k : Nat) :
    ∀ l : List α, (∀ a ∈ l, (f a).length = k) →
      ((l.map f).flatten).length = l.length * k := by
  intro l
  induction l with
  | nil => intro _; simp
  | cons x xs ih =>
      intro h
      simp only [List.map_cons, List.flatten_cons, List.length_append,
        List.length_cons]
      rw [h x (List.mem_cons_self x xs),
        ih (fun a ha => h a (List.mem_cons_of_mem x ha))]
      ring

theorem run_query_length_le (env : RunnerEnv) (sid : String) (q : List Char)
    (models : List String) (pinfo : ProjectInfoR) (rc : Nat) :
    (run_query env sid q models pinfo rc).length ≤ models.length * rc := by
  unfold run_query
  apply flatten_map_length_le
  intro m
  split
  · exact le_trans (List.length_filterMap_le _ _) (by simp)
  · simp

theorem attemptRun_isSome (env : RunnerEnv) (sid : String) (q : List Char)
    (pinfo : ProjectInfoR) (mc : Option MarketContextR) (m : String) (r : Nat)
    (hcall : ∀ prompt, ∃ resp, env.callModel m r prompt = Except.ok resp)
    (hsave : ∃ ids, env.saveResult q m = Except.ok ids) :
    (attemptRun env sid q pinfo mc m r).isSome := by
  unfold attemptRun
  dsimp only
  obtain ⟨resp, hresp⟩ :=
    hcall (build_findability_prompt q (some pinfo) mc "findability".data)
  rw [hresp]
  obtain ⟨ids, hids⟩ := hsave
  rw [hids]
  rfl

theorem applyWrites_running_completed :
    applyWrites queuedRow [("running", none), ("completed", none)]
      = ⟨"COMPLETED", true, true, none⟩ := by
  decide

theorem applyWrites_failed_only :
    applyWrites queuedRow [("failed", none)] = ⟨"FAILED", false, true, none⟩ := by
  decide

theorem applyWrites_running_failed :
    applyWrites queuedRow [("running", none), ("failed", none)]
      = ⟨"FAILED", true, true, none⟩ := by
  decide

theorem run_query_length_eq (env : RunnerEnv) (sid : String) (q : List Char)
    (models : List String) (pinfo : ProjectInfoR) (rc : Nat)
    (hconf : ∀ m ∈ models, env.configured.contains m = true)
    (hcall : ∀ mid ridx prompt, ∃ resp,
      env.callModel mid ridx prompt = Except.ok resp)
    (hsave : ∀ qt mid, ∃ ids, env.saveResult qt mid = Except.ok ids) :
    (run_query env sid q models pinfo rc).length = models.length * rc := by
  unfold run_query
  apply flatten_map_length_eq
  intro m hm
  rw [if_pos (hconf m hm)]
  rw [length_filterMap_of_isSome]
  · exact List.length_range rc
  · intro ridx _
    exact attemptRun_isSome env sid q pinfo _ m ridx
      (fun prompt => hcall m ridx prompt) (hsave q m)

/-- C7: under functioning session bookkeeping (session found, status
writes and project lookup succeed), processing a session with N declared
queries, M models and run count R writes `running` then `completed`
(reaching COMPLETED status regardless of individual model-call outcomes,
so a session with one failed (model, run) pair still completes), persists
at most N*M*R RunResults, and persists exactly N*M*R when every model is
configured and every model call and every save succeeds. -/
theorem c7_fanout_counts_and_completion :
    ∀ (env : SchedEnv) (sid : String) (sess : SessionRec),
      env.getSession sid = Except.ok (some sess) →
      env.updateStatus sid "running" none = Except.ok () →
      (∃ piOpt, env.getProjectInfo sess.projectId = Except.ok piOpt) →
      env.updateStatus sid "completed" none = Except.ok () →
      (process_session env sid).writes = [("running", none), ("completed", none)]
      ∧ (process_session env sid).escaped = none
      ∧ (applyWrites queuedRow (process_session env sid).writes).status = "COMPLETED"
      ∧ (process_session env sid).results.length
          ≤ sess.queries.length * (sess.models.length * sess.runCount)
      ∧ ((∀ m ∈ sess.models, env.runner.configured.contains m = true) →
          (∀ mid ridx prompt, ∃ resp,
            env.runner.callModel mid ridx prompt = Except.ok resp) →
          (∀ qt mid, ∃ ids, env.runner.saveResult qt mid = Except.ok ids) →
          (process_session env sid).results.length
            = sess.queries.length * (sess.models.length * sess.runCount)) := by
  intro env sid sess h1 h2 h3 h4
  obtain ⟨piOpt, h3⟩ := h3
  have hps : process_session env sid =
      ⟨[("running", none), ("completed", none)],
        ((sess.queries.map (fun q => run_query env.runner sid q sess.models
          (piOpt.getD defaultProjectInfo) sess.runCount)).flatten), none⟩ := by
    unfold process_session
    simp only [h1, h2, h3, h4]
  rw [hps]
  refine ⟨rfl, rfl, ?_, ?_, ?_⟩
  · show (applyWrites queuedRow
        [("running", none), ("completed", none)]).status = "COMPLETED"
    rw [applyWrites_running_completed]
  · exact flatten_map_length_le _ _
      (fun q => run_query_length_le env.runner sid q sess.models _ sess.runCount)
      sess.queries
  · intro hconf hcall hsave
    exact flatten_map_length_eq _ _ sess.queries
      (fun q _ => run_query_length_eq env.runner sid q sess.models _
        sess.runCount hconf hcall hsave)

/-- Witness for C7: in `env7` (one query, two configured models, two
runs, bookkeeping succeeding, the single (m2, run 1) call failing) the
session reaches COMPLETED and persists 3 = N*M*R - 1 RunResults. -/
theorem c7_fanout_counts_and_completion_witness :
    (applyWrites queuedRow (process_session env7 "s1").writes).status = "COMPLETED"
    ∧ (process_session env7 "s1").results.length = 3 :=
  ⟨(c7_fanout_counts_and_completion env7 "s1" sess7 rfl rfl
      ⟨some pi7, rfl⟩ rfl).2.2.1, by decide⟩

/-! ## C1 -- scheduler failure handling -/

/-- C1 counterexample: with the session load raising `boom` and status
writes succeeding, the session row ends FAILED -- but its error message is
`None`, not the exception message `boom`: `process_session`'s handler
calls `update_session_status(session_id, "failed")` without the
error-message argument (main.py 179), so the claim that the exception's
message is recorded as the session's error message is false. -/
theorem c1_error_message_not_recorded_counterexample :
    (applyWrites queuedRow (process_session env1 "s1").writes).status = "FAILED"
    ∧ (applyWrites queuedRow (process_session env1 "s1").writes).errorMessage = none
    ∧ ¬((applyWrites queuedRow (process_session env1 "s1").writes).errorMessage
          = some "boom".data) := by
  exact ⟨by decide, by decide, by decide⟩

/-- C1 amended: for every session, if any exception escapes the
session-processing steps (loading the session, the running-status write,
loading project context, or the completed-status write), and the
handler's own failed-status write succeeds, then the session's status is
transitioned to FAILED with a NULL error message -- the exception's
message is logged but not recorded -- and the worker loop's polling
schedule is unaffected by session outcomes (it resumes rather than
terminating). -/
theorem c1_failure_path_amended :
    ∀ (env : SchedEnv) (sid : String),
      ((∃ e, env.getSession sid = Except.error e)
        ∨ (∃ sess, env.getSession sid = Except.ok (some sess)
            ∧ ((∃ e, env.updateStatus sid "running" none = Except.error e)
              ∨ (env.updateStatus sid "running" none = Except.ok ()
                  ∧ ((∃ e, env.getProjectInfo sess.projectId = Except.error e)
                    ∨ ((∃ piOpt, env.getProjectInfo sess.projectId
                          = Except.ok piOpt)
                        ∧ (∃ e, env.updateStatus sid "completed" none
                            = Except.error e))))))) →
      env.updateStatus sid "failed" none = Except.ok () →
      (process_session env sid).escaped = none
      ∧ (process_session env sid).writes.getLast? = some ("failed", none)
      ∧ (applyWrites queuedRow (process_session env sid).writes).status = "FAILED"
      ∧ (applyWrites queuedRow (process_session env sid).writes).errorMessage = none
      ∧ (∀ n q, (workerRun env n q).2.map Prod.fst = dequeueTrace n q) := by
  intro env sid hesc hfail
  have hfin : ∀ pw pr, (pw = [] ∨ pw = [("running", none)]) →
      failHandler env sid pw pr = ⟨pw ++ [("failed", none)], pr, none⟩ := by
    intro pw pr _
    unfold failHandler
    rw [hfail]
  have hmain : (process_session env sid).escaped = none
      ∧ (process_session env sid).writes.getLast? = some ("failed", none)
      ∧ (applyWrites queuedRow (process_session env sid).writes).status = "FAILED"
      ∧ (applyWrites queuedRow (process_session env sid).writes).errorMessage
          = none := by
    rcases hesc with ⟨e, he⟩ | ⟨sess, hs, hrest⟩
    · have : process_session env sid = ⟨[("failed", none)], [], none⟩ := by
        unfold process_session
        simp only [he, hfin [] [] (Or.inl rfl), List.nil_append]
      rw [this]
      refine ⟨rfl, rfl, ?_, ?_⟩
      · show (applyWrites queuedRow [("failed", none)]).status = "FAILED"
        rw [applyWrites_failed_only]
      · show (applyWrites queuedRow [("failed", none)]).errorMessage = none
        rw [applyWrites_failed_only]
    · rcases hrest with ⟨e, he⟩ | ⟨hrun, hrest⟩
      · have : process_session env sid = ⟨[("failed", none)], [], none⟩ := by
          unfold process_session
          simp only [hs, he, hfin [] [] (Or.inl rfl), List.nil_append]
        rw [this]
        refine ⟨rfl, rfl, ?_, ?_⟩
        · show (applyWrites queuedRow [("failed", none)]).status = "FAILED"
          rw [applyWrites_failed_only]
        · show (applyWrites queuedRow [("failed", none)]).errorMessage = none
          rw [applyWrites_failed_only]
      · rcases hrest with ⟨e, he⟩ | ⟨⟨piOpt, hpi⟩, ⟨e, hc⟩⟩
        · have : process_session env sid
              = ⟨[("running", none), ("failed", none)], [], none⟩ := by
            unfold process_session
            simp only [hs, hrun, he,
              hfin [("running", none)] [] (Or.inr rfl), List.singleton_append]
          rw [this]
          refine ⟨rfl, rfl, ?_, ?_⟩
          · show (applyWrites queuedRow
                [("running", none), ("failed", none)]).status = "FAILED"
            rw [applyWrites_running_failed]
          · show (applyWrites queuedRow
                [("running", none), ("failed", none)]).errorMessage = none
            rw [applyWrites_running_failed]
        · have : process_session env sid
              = ⟨[("running", none), ("failed", none)],
                  ((sess.queries.map (fun q => run_query env.runner sid q
                    sess.models (piOpt.getD defaultProjectInfo)
                    sess.runCount)).flatten), none⟩ := by
            unfold process_session
            simp only [hs, hrun, hpi, hc,
              hfin [("running", none)] _ (Or.inr rfl), List.singleton_append]
          rw [this]
          refine ⟨rfl, rfl, ?_, ?_⟩
          · show (applyWrites queuedRow
                [("running", none), ("failed", none)]).status = "FAILED"
            rw [applyWrites_running_failed]
          · show (applyWrites queuedRow
                [("running", none), ("failed", none)]).errorMessage = none
            rw [applyWrites_running_failed]
  exact ⟨hmain.1, hmain.2.1, hmain.2.2.1, hmain.2.2.2,
    fun n q => workerRun_trace_eq env n q⟩

/-- Witness for C1 amended in `env1` (session load raises `boom`). -/
theorem c1_failure_path_amended_witness :
    (process_session env1 "s1").escaped = none
    ∧ (process_session env1 "s1").writes.getLast? = some ("failed", none)
    ∧ (applyWrites queuedRow (process_session env1 "s1").writes).errorMessage
        = none :=
  have h := c1_failure_path_amended env1 "s1" (Or.inl ⟨"boom".data, rfl⟩) rfl
  ⟨h.1, h.2.1, h.2.2.2.1⟩

/-! ## C4 -- the persisted mention merge -/

/-- C4 amended: every RunResult persisted by the executor carries a
mention list that is the set union of the engine's generic mention list
for the persisted response text and the project-specific mention list,
de-duplicated by EXACT string equality (case-sensitively); the list has
no exact duplicates, but entries differing only in letter case may both
persist. -/
theorem c4_mention_merge_amended :
    ∀ (env : RunnerEnv) (sid : String) (q : List Char) (models : List String)
      (pinfo : ProjectInfoR) (rc : Nat) (r : RunResultR),
      r ∈ run_query env sid q models pinfo rc →
      r.mentions.Nodup
      ∧ r.mentions.toFinset =
          ((parse r.responseText).mentions ++
            (extract_project_mentions r.responseText (pinfo.domain.getD [])
              pinfo.competitors).project_mentions).toFinset := by
  intro env sid q models pinfo rc r hr
  unfold run_query at hr
  rw [List.mem_flatten] at hr
  obtain ⟨l, hl, hrl⟩ := hr
  rw [List.mem_map] at hl
  obtain ⟨m, _, rfl⟩ := hl
  split at hrl
  · rw [List.mem_filterMap] at hrl
    obtain ⟨ridx, _, hatt⟩ := hrl
    unfold attemptRun at hatt
    dsimp only at hatt
    revert hatt
    cases hc : env.callModel m ridx (build_findability_prompt q (some pinfo) _
        "findability".data) with
    | error e => intro hatt; cases hatt
    | ok resp =>
        cases hs : env.saveResult q m with
        | error e => intro hatt; cases hatt
        | ok ids =>
            intro hatt
            have hr' := Option.some.inj hatt
            subst hr'
            exact ⟨pyDedup_nodup _, pyDedup_toFinset _⟩
  · cases hrl

/-- Witness for C4 amended at the concrete environment `env4`. -/
theorem c4_mention_merge_amended_witness :
    ((run_query env4 "s1" "best notes".data ["m1"] pi4 1).headD
        runResultDflt).mentions.Nodup :=
  (c4_mention_merge_amended env4 "s1" "best notes".data ["m1"] pi4 1 _
    (by decide)).1

/-- C4 counterexample: in `env4` the model response contains the
CamelCase token `NOtion` while the project domain `notion.so` derives the
brand name `Notion`; the single persisted RunResult's mention list
contains BOTH -- two entries differing only in letter case -- because the
merge `list(set(a + b))` de-duplicates case-sensitively, refuting the
claimed case-insensitive de-duplication. -/
theorem c4_case_sensitive_union_counterexample :
    (run_query env4 "s1" "best notes".data ["m1"] pi4 1).length = 1
    ∧ "NOtion".data ∈ ((run_query env4 "s1" "best notes".data ["m1"] pi4
        1).headD runResultDflt).mentions
    ∧ "Notion".data ∈ ((run_query env4 "s1" "best notes".data ["m1"] pi4
        1).headD runResultDflt).mentions
    ∧ "NOtion".data ≠ "Notion".data
    ∧ pyLower "NOtion".data = pyLower "Notion".data := by
  exact ⟨by decide, by decide, by decide, by decide, by decide⟩

/-! ## C5 -- citation idempotence -/

theorem startsWithL_append_self : ∀ p x : List Char, startsWithL p (p ++ x) = true := by
  intro p
  induction p with
  | nil => intro x; rfl
  | cons c ps ih => intro x; simp [startsWithL, ih]

theorem startsWithL_drop : ∀ p cs : List Char, startsWithL p cs = true →
    cs = p ++ cs.drop p.length := by
  intro p
  induction p with
  | nil => intro cs _; simp
  | cons c ps ih =>
      intro cs h
      cases cs with
      | nil => simp [startsWithL] at h
      | cons d ds =>
          simp only [startsWithL, Bool.and_eq_true, decide_eq_true_eq] at h
          obtain ⟨rfl, h2⟩ := h
          simp only [List.length_cons, List.drop_succ_cons, List.cons_append,
            List.cons.injEq, true_and]
          exact ih ds h2

theorem scanUrl_nil : ∀ f, scanSimple matchUrl f [] = [] := by
  intro f
  cases f with
  | zero => rfl
  | succ f => rfl

theorem matchUrl_full : ∀ (u tail : List Char), isFullUrl u = true →
    (tail = [] ∨ ∃ c ts, tail = c :: ts ∧ isUrlChar c = false) →
    matchUrl (u ++ tail) = some (u, tail) := by
  intro u tail hu htail
  unfold isFullUrl at hu
  simp only [Bool.or_eq_true, Bool.and_eq_true] at hu
  rcases hu with ⟨⟨h1, h2⟩, h3⟩ | ⟨⟨h1, h2⟩, h3⟩
  · have hb : u = "https://".data ++ u.drop 8 := by
      have := startsWithL_drop "https://".data u h1
      simpa using this
    have key : u ++ tail = "https://".data ++ (u.drop 8 ++ tail) := by
      conv_lhs => rw [hb]
      rw [List.append_assoc]
    rw [key]
    unfold matchUrl
    rw [if_pos (startsWithL_append_self _ _)]
    have hdrop : ("https://".data ++ (u.drop 8 ++ tail)).drop 8
        = u.drop 8 ++ tail := by
      have hl : ("https://".data).length = 8 := rfl
      rw [← hl, List.drop_left]
    rw [hdrop, takeRun_of_all isUrlChar (u.drop 8) tail h3 htail]
    rw [if_neg (by simpa using h2)]
    rw [← hb]
  · have hb : u = "http://".data ++ u.drop 7 := by
      have := startsWithL_drop "http://".data u h1
      simpa using this
    have key : u ++ tail = "http://".data ++ (u.drop 7 ++ tail) := by
      conv_lhs => rw [hb]
      rw [List.append_assoc]
    have hneg : startsWithL "https://".data (u ++ tail) = false := by
      rw [key]
      have e1 : "https://".data
          = 'h' :: 't' :: 't' :: 'p' :: 's' :: ':' :: '/' :: '/' :: [] := rfl
      have e2 : "http://".data
          = 'h' :: 't' :: 't' :: 'p' :: ':' :: '/' :: '/' :: [] := rfl
      rw [e1, e2]
      simp [startsWithL]
    rw [key] at hneg ⊢
    unfold matchUrl
    rw [hneg]
    simp only [Bool.false_eq_true, if_false]
    rw [if_pos (startsWithL_append_self _ _)]
    have hdrop : ("http://".data ++ (u.drop 7 ++ tail)).drop 7
        = u.drop 7 ++ tail := by
      have hl : ("http://".data).length = 7 := rfl
      rw [← hl, List.drop_left]
    rw [hdrop, takeRun_of_all isUrlChar (u.drop 7) tail h3 htail]
    rw [if_neg (by simpa using h2)]
    rw [← hb]

theorem isFullUrl_ne_nil (u : List Char) (hu : isFullUrl u = true) :
    1 ≤ u.length := by
  unfold isFullUrl at hu
  simp only [Bool.or_eq_true, Bool.and_eq_true] at hu
  rcases hu with ⟨⟨h1, _⟩, _⟩ | ⟨⟨h1, _⟩, _⟩ <;>
    · cases u with
      | nil => simp [startsWithL] at h1
      | cons c cs => simp

theorem scanUrl_render (cs : List (List Char))
    (h : ∀ u ∈ cs, isFullUrl u = true) :
    ∀ f, (renderCitations cs).length < f →
      scanSimple matchUrl f (renderCitations cs) = cs := by
  induction cs with
  | nil => intro f _; exact scanUrl_nil f
  | cons u us ih =>
      intro f hf
      have hu : isFullUrl u = true := h u (List.mem_cons_self u us)
      cases us with
      | nil =>
          cases f with
          | zero => exact absurd hf (Nat.not_lt_zero _)
          | succ f =>
              have hm : matchUrl (renderCitations [u]) = some (u, []) := by
                have : renderCitations [u] = u ++ [] := by
                  simp [renderCitations, joinWith]
                rw [this]
                exact matchUrl_full u [] hu (Or.inl rfl)
              simp only [scanSimple, hm]
              rw [scanUrl_nil f]
      | cons v vs =>
          have hrender : renderCitations (u :: v :: vs)
              = u ++ ('\n' :: renderCitations (v :: vs)) := by
            simp [renderCitations, joinWith]
          cases f with
          | zero => exact absurd hf (Nat.not_lt_zero _)
          | succ f =>
              have hm : matchUrl (renderCitations (u :: v :: vs))
                  = some (u, '\n' :: renderCitations (v :: vs)) := by
                rw [hrender]
                exact matchUrl_full u _ hu
                  (Or.inr ⟨'\n', _, rfl, rfl⟩)
              simp only [scanSimple, hm]
              cases f with
              | zero =>
                  exfalso
                  rw [hrender, List.length_append, List.length_cons] at hf
                  have h1 := isFullUrl_ne_nil u hu
                  omega
              | succ f =>
                  have hm2 : matchUrl ('\n' :: renderCitations (v :: vs))
                      = none := rfl
                  simp only [scanSimple, hm2]
                  refine congrArg (u :: ·)
                    (ih (fun w hw => h w (List.mem_cons_of_mem u hw)) f ?_)
                  rw [hrender, List.length_append, List.length_cons] at hf
                  have h1 := isFullUrl_ne_nil u hu
                  omega

theorem urlFindall_render (cs : List (List Char))
    (h : ∀ u ∈ cs, isFullUrl u = true) :
    urlFindall (renderCitations cs) = cs :=
  scanUrl_render cs h _ (Nat.lt_succ_self _)

theorem foldl_clean_urls (cs : List (List Char))
    (h : ∀ u ∈ cs, isCleanUrl u = true) :
    ∀ acc, cs.foldl
      (fun acc u =>
        let cu := pyStripSet stripCitChars u
        if (netlocOf cu).isEmpty then acc else acc ++ [cu]) acc
      = acc ++ cs := by
  induction cs with
  | nil => intro acc; simp
  | cons u us ih =>
      intro acc
      have hu : isCleanUrl u = true := h u (List.mem_cons_self u us)
      unfold isCleanUrl at hu
      simp only [Bool.and_eq_true] at hu
      have hstrip : pyStripSet stripCitChars u = u := eq_of_beq hu.1.2
      have hnet : (netlocOf u).isEmpty = false := by
        simpa using hu.2
      simp only [List.foldl_cons, hstrip, hnet, Bool.false_eq_true, if_false]
      rw [ih (fun w hw => h w (List.mem_cons_of_mem u hw)) (acc ++ [u])]
      simp

theorem urlCitations_render (cs : List (List Char))
    (h : ∀ u ∈ cs, isCleanUrl u = true) :
    urlCitations (renderCitations cs) = cs := by
  unfold urlCitations
  rw [urlFindall_render cs (fun u hu => by
    have := h u hu
    unfold isCleanUrl at this
    simp only [Bool.and_eq_true] at this
    exact this.1.1)]
  simpa using foldl_clean_urls cs h []

theorem extract_citations_nodup (t : List Char) :
    (extract_citations t).Nodup :=
  pyDedup_nodup _

/-- C5 counterexample: citation extraction is not idempotent.  The text
`[1]` yields the citation set `{1}`; re-running the extractor on the
textual rendering of that (de-duplicated) output -- the text `1` -- yields
no citations at all, because a bare reference value matches neither the
URL pattern nor any citation pattern. -/
theorem c5_citation_idempotence_counterexample :
    extract_citations "[1]".data = ["1".data]
    ∧ renderCitations (extract_citations "[1]".data) = "1".data
    ∧ extract_citations "1".data = []
    ∧ "1".data ∈ extract_citations "[1]".data
    ∧ "1".data ∉ extract_citations (renderCitations (extract_citations "[1]".data)) := by
  exact ⟨by decide, by decide, by decide, by decide, by decide⟩

/-- C5 amended: idempotence holds exactly on the URL side: whenever every
extracted citation is a clean scheme-bearing URL (a complete URL-pattern
match, strip-fixed, with non-empty host) and the rendering of the output
contains no bracket/paren reference markers and no `Source:`/`Reference:`
lines, re-running the extractor on the rendering of its own de-duplicated
output yields the same citation list (hence the same set); reference
markers and `Source:`/`Reference:` values are in general not recovered. -/
theorem c5_citation_idempotence_amended :
    ∀ t,
      (∀ u ∈ extract_citations t, isCleanUrl u = true) →
      bracketFindall (renderCitations (extract_citations t)) = [] →
      parenFindall (renderCitations (extract_citations t)) = [] →
      sourceFindall (renderCitations (extract_citations t)) = [] →
      referenceFindall (renderCitations (extract_citations t)) = [] →
      extract_citations (renderCitations (extract_citations t))
        = extract_citations t := by
  intro t hclean hb hp hs hr
  have hxe : extract_citations (renderCitations (extract_citations t))
      = pyDedup (addCitations (addCitations (addCitations (addCitations
          (urlCitations (renderCitations (extract_citations t)))
          (bracketFindall (renderCitations (extract_citations t))))
          (parenFindall (renderCitations (extract_citations t))))
          (sourceFindall (renderCitations (extract_citations t))))
          (referenceFindall (renderCitations (extract_citations t)))) := rfl
  rw [hxe, hb, hp, hs, hr]
  have haddnil : ∀ acc : List (List Char), addCitations acc [] = acc :=
    fun _ => rfl
  rw [haddnil, haddnil, haddnil, haddnil]
  rw [urlCitations_render _ hclean]
  exact pyDedup_eq_self _ (extract_citations_nodup t)

/-- Witness for C5 amended: a text whose only citation is a clean URL. -/
theorem c5_citation_idempotence_amended_witness :
    extract_citations
        (renderCitations (extract_citations "Try https://notion.so now".data))
      = extract_citations "Try https://notion.so now".data :=
  c5_citation_idempotence_amended "Try https://notion.so now".data
    (by decide) (by decide) (by decide) (by decide) (by decide)

end Findable
